import Mathlib

/-!
Verification of the outtake Gmail-to-Maildir synchronizer.

This file is a shallow embedding, in Lean 4, of the parts of the program that
the checked properties talk about:

* the durable key-value cache (`lib.Cache` / `BoltCache` in `lib/progress.go`,
  modelled as a function from (namespace, key) to an optional stored value),
* the `gmailCache` typed wrapper (`lib/gmail/cache.go`): message-id to maildir
  key, message-id to label list, and the varint-encoded history index,
* Go's `encoding/binary` unsigned varint (`PutUvarint` / `Uvarint`), embedded
  byte-for-byte because `SetHistoryIdx` writes into a fixed 8-byte buffer,
* the label delta engine (`computeLabels`, `labelsChanged` in
  `lib/gmail/gmail.go`),
* the per-message pipeline step `handleNewMsg` with `getBody`, the shard
  assignment `shardForMsgId` (including Go's `strconv.ParseUint(id, 16, 64)`
  error behaviour, whose error the caller discards),
* the apply stage of `full()` and `incremental()` (sequentialized: the Go
  pipeline applies ops one at a time in a single apply loop, so the
  channel/goroutine plumbing reduces to a fold over the list of produced ops),
* the retry helper `RateLimit.DoWithBackoff` (`lib/ratelimit.go`).

External collaborators (the REST service, base64, RFC 5322 parsing, maildir
file I/O) are modelled as oracle functions carried in environment records:
the code under scrutiny only branches on their results, never on their
internals.  Go byte slices are `List Nat`; `uint64` values are `Nat` with
explicit `2 ^ 64` bounds where overflow matters.
-/

/-! ### The durable cache (`lib.Cache`, backed by BoltDB)

A value stored in the cache.  The store itself holds raw bytes; the three
variants record which (deterministic, injective) Go encoding produced the
bytes: a raw byte buffer (the varint history index), a Go string cast to
bytes (`[]byte(key)`, the identity on byte sequences), or a `[]string`
serialized with `encoding/gob` (an external deterministic codec, so distinct
label lists have distinct encodings). -/
inductive CacheVal where
  | bytes (bs : List Nat)
  | str (s : String)
  | gob (ls : List String)

/-- The cache: `(namespace, key) → value` with absence as `none`.
`BoltCache.Get` returns `(nil, false)` when namespace or key is absent. -/
def Cache : Type := String → String → Option CacheVal

/-- Go `BoltCache.Set ns k v`: store `v` under `(ns, k)`. -/
def cacheSet (c : Cache) (ns k : String) (v : CacheVal) : Cache :=
  fun ns' k' => if ns' = ns then (if k' = k then some v else c ns' k') else c ns' k'

/-- Go `BoltCache.Del ns k`: remove the entry under `(ns, k)` (no-op if absent). -/
def cacheDel (c : Cache) (ns k : String) : Cache :=
  fun ns' k' => if ns' = ns then (if k' = k then none else c ns' k') else c ns' k'

/-- A cache with no entries. -/
def emptyCache : Cache := fun _ _ => none

/-! ### Go `encoding/binary` unsigned varints -/

/-- The emission loop of `binary.PutUvarint` for `x`: seven bits per byte,
least significant group first, high bit set on every byte but the last.  The
`fuel` argument makes the recursion structural; `PutUvarint`'s argument is a
`uint64`, which needs at most `MaxVarintLen64 = 10` bytes, so fuel `10` is
exact for every reachable input. -/
def uvarintBytesAux : Nat → Nat → List Nat
  | 0, _ => []
  | fuel + 1, x => if x < 128 then [x] else (x % 128 + 128) :: uvarintBytesAux fuel (x / 128)

/-- The byte sequence `binary.PutUvarint` emits for a `uint64`. -/
def uvarintBytes (x : Nat) : List Nat := uvarintBytesAux 10 x

/-- Go `binary.Uvarint buf` with shift `s` and accumulator `x`: a byte with the
high bit clear terminates and contributes its value at bit position `s`; a byte
with the high bit set contributes its low seven bits and decoding continues.
(`x | b<<s` equals `x + b * 2 ^ s` because each byte lands in a disjoint bit
range above the bits already in `x`.)  An exhausted buffer yields `(0, 0)` in
Go; the buffers built here are 8 bytes long, so `binary.MaxVarintLen64`
overflow guards never fire and are omitted. -/
def uvarintDec : List Nat → Nat → Nat → Nat
  | [], _, _ => 0
  | b :: rest, s, x =>
    if b < 128 then x + b * 2 ^ s
    else uvarintDec rest (s + 7) (x + b % 128 * 2 ^ s)

/-- Go `binary.Uvarint` on a whole buffer. -/
def uvarint (buf : List Nat) : Nat := uvarintDec buf 0 0

/-- Go `b := make([]byte, 8); binary.PutUvarint(b, i)`: the 8-byte buffer with the
varint at the front and the untouched zero bytes after it — or `none` when the
varint needs more than 8 bytes, in which case `PutUvarint` indexes past the end
of the buffer and panics (`MaxVarintLen64` is 10, so every `i ≥ 2^56` needs 9
or 10 bytes). -/
def putUvarint8 (i : Nat) : Option (List Nat) :=
  let bs := uvarintBytes i
  if bs.length ≤ 8 then some (bs ++ List.replicate (8 - bs.length) 0) else none

/-! ### The `gmailCache` wrapper (`lib/gmail/cache.go`) -/

/-- Cache namespace for message-id → maildir key. -/
def midToKey : String := "mid_to_key"

/-- Cache namespace for message-id → gob-encoded label list. -/
def midToLabels : String := "mid_to_label"

/-- Cache namespace for the varint-encoded history index (single key `"0"`). -/
def historyIndexNs : String := "history_index"

/-- Go `gmailCache.GetMsgKey m`: `(maildir.Key(k), ok)`.  When the entry is
absent, Go converts the `nil` byte slice to the empty string.  A non-`str`
variant cannot be produced through this wrapper (only `SetMsgKey` writes the
`mid_to_key` namespace); Go would return whatever bytes are stored, modelled
as the empty string. -/
def GetMsgKey (c : Cache) (m : String) : String × Bool :=
  match c midToKey m with
  | some (CacheVal.str s) => (s, true)
  | some _ => ("", true)
  | none => ("", false)

/-- Go `gmailCache.SetMsgKey m k`: `Set(midToKey, m, []byte(k))`. -/
def SetMsgKey (c : Cache) (m k : String) : Cache :=
  cacheSet c midToKey m (CacheVal.str k)

/-- Go `gmailCache.DelMsg m`: delete `m` from both the `mid_to_key` and the
`mid_to_label` namespaces. -/
def DelMsg (c : Cache) (m : String) : Cache :=
  cacheDel (cacheDel c midToKey m) midToLabels m

/-- Go `gmailCache.GetMsgLabels m`: decode the gob-encoded label list; `([], false)`
when the entry is absent.  A non-`gob` variant cannot be produced through this
wrapper (only `SetMsgLabels` writes the `mid_to_label` namespace); on such
bytes Go's gob decoder would panic, and the arbitrary value `([], true)` keeps
the model total. -/
def GetMsgLabels (c : Cache) (m : String) : List String × Bool :=
  match c midToLabels m with
  | some (CacheVal.gob ls) => (ls, true)
  | some _ => ([], true)
  | none => ([], false)

/-- Go `gmailCache.SetMsgLabels m ls`: store the gob encoding of `ls`. -/
def SetMsgLabels (c : Cache) (m : String) (ls : List String) : Cache :=
  cacheSet c midToLabels m (CacheVal.gob ls)

/-- Go `gmailCache.GetHistoryIdx`: decode the stored buffer with `binary.Uvarint`,
`0` when absent.  (Only `SetHistoryIdx` writes this namespace, always a
`bytes` value; other variants decode as `0` to keep the model total.) -/
def GetHistoryIdx (c : Cache) : Nat :=
  match c historyIndexNs "0" with
  | some (CacheVal.bytes b) => uvarint b
  | some _ => 0
  | none => 0

/-- Go `gmailCache.SetHistoryIdx i`: `PutUvarint` into an 8-byte buffer, then
store the buffer.  `none` models the `PutUvarint` panic on `i ≥ 2^56`. -/
def SetHistoryIdx (c : Cache) (i : Nat) : Option Cache :=
  (putUvarint8 i).map (fun b => cacheSet c historyIndexNs "0" (CacheVal.bytes b))

/-! ### The label delta engine (`computeLabels`, `labelsChanged`) -/

/-- One step of building the Go set `map[string]struct{}`: inserting a key
that is already present leaves the map unchanged.  The model keeps the keys as
a duplicate-free list in insertion order; Go's map iteration order is
unspecified, and every property stated below is insensitive to the order. -/
def mapInsert (m : List String) (l : String) : List String :=
  if l ∈ m then m else m ++ [l]

/-- Go `delete(nlabels, l)`: remove a key from the Go map (no-op if absent). -/
def mapDelete (m : List String) (l : String) : List String :=
  m.filter (fun x => x ≠ l)

/-- Go `Gmail.computeLabels id added removed`: if the cache holds a label set for
`id`, build a map from the old labels, insert `added`, delete `removed`, and
return the map's keys; otherwise return `added` unchanged (cache miss is
logged in Go). -/
def computeLabels (c : Cache) (id : String) (added removed : List String) : List String :=
  match GetMsgLabels c id with
  | (old, true) =>
    let m0 := old.foldl mapInsert []
    let m1 := added.foldl mapInsert m0
    removed.foldl mapDelete m1
  | (_, false) => added

/-- The element-wise comparison loop of `labelsChanged` on two equal-length
sorted slices: `true` iff some position differs. -/
def sortedDiffer (xs ys : List String) : Bool :=
  (xs.zip ys).any (fun p => p.1 ≠ p.2)

/-- Go `Gmail.labelsChanged id newLabels`: `true` when the cache holds no labels
for `id`; otherwise sort both lists (`sort.Strings`, modelled by
`insertionSort` — sorting under a linear order has a unique result, and Go's
byte-wise string order coincides with Lean's character-wise order because
UTF-8 byte order agrees with code-point order) and report `true` iff the
lengths differ or some position differs.  Go also guards `old != nil`, which
always holds there: `GetMsgLabels` initializes its slice to `[]string{}` and
gob decoding keeps it non-nil. -/
def labelsChanged (c : Cache) (id : String) (newLabels : List String) : Bool :=
  match GetMsgLabels c id with
  | (old, true) =>
    let so := old.insertionSort (· ≤ ·)
    let sn := newLabels.insertionSort (· ≤ ·)
    if so.length = sn.length then sortedDiffer so sn else true
  | (_, false) => true

/-! ### Shard assignment (`shardForMsgId`) and Go `strconv.ParseUint(id, 16, 64)` -/

/-- The numeric value of a hex digit, `none` for a non-hex character
(`strconv`'s per-character digit check for base 16). -/
def hexDigitVal (ch : Char) : Option Nat :=
  if '0' ≤ ch ∧ ch ≤ '9' then some (ch.toNat - '0'.toNat)
  else if 'a' ≤ ch ∧ ch ≤ 'f' then some (ch.toNat - 'a'.toNat + 10)
  else if 'A' ≤ ch ∧ ch ≤ 'F' then some (ch.toNat - 'A'.toNat + 10)
  else none

/-- The digit-accumulation loop of Go `strconv.ParseUint(s, 16, 64)`:
an invalid character returns `0` (with a syntax error the caller discards);
an accumulator at or above `cutoff = 2^60` returns `maxVal = 2^64 - 1` (with a
range error); otherwise the next digit is folded in (no wrap-around is
possible below the cutoff). -/
def parseUintHex64Digits : List Char → Nat → Nat
  | [], n => n
  | ch :: rest, n =>
    match hexDigitVal ch with
    | none => 0
    | some d => if n ≥ 2 ^ 60 then 2 ^ 64 - 1 else parseUintHex64Digits rest (n * 16 + d)

/-- Go `strconv.ParseUint(s, 16, 64)` as used by `shardForMsgId`: the empty
string is a syntax error returning `0`; otherwise run the digit loop. -/
def parseUintHex64 (s : String) : Nat :=
  if s.data = [] then 0 else parseUintHex64Digits s.data 0

/-- Go `shardForMsgId`, parameterized by the worker count `n`
(`ConcurrentDownloads`, a mutable package variable): parse the id as a 64-bit
hex integer, discarding the error, and reduce modulo `uint64(n)`. -/
def shardForMsgId (n : Nat) (id : String) : Nat :=
  parseUintHex64 id % n

/-- Specification-side `ParseHex`: the mathematical value of a hex string
(digits folded most-significant first, as positional notation reads). -/
def hexVal (s : String) : Nat :=
  s.data.foldl (fun a ch => a * 16 + (hexDigitVal ch).getD 0) 0

/-! ### `RateLimit.DoWithBackoff` (`lib/ratelimit.go`) -/

/-- A Go error as the pipeline observes it: either a `*googleapi.Error`
carrying an HTTP status code, or any other error value. -/
inductive GoErr where
  | googleapi (code : Nat)
  | other (msg : String)
deriving DecidableEq

/-- The retry loop of `DoWithBackoff f`.  The stateful closure `f` is modelled
as the stream `fs` of its successive results `(err, fatal)`, indexed by the
attempt number; `fuel` counts the remaining loop iterations (`i < BackoffLimit`)
and the second component of the result counts how many times `f` was invoked.
When the fuel runs out the loop exits and returns the last error `e`
(initially `nil` from `var err error`). -/
def doWithBackoffAux (fs : Nat → Option GoErr × Bool) : Nat → Nat → Option GoErr → Option GoErr × Nat
  | 0, _, e => (e, 0)
  | fuel + 1, i, _ =>
    let r := fs i
    if r.1 = none ∨ r.2 then (r.1, 1)
    else
      let rec' := doWithBackoffAux fs fuel (i + 1) r.1
      (rec'.1, rec'.2 + 1)

/-- Go `DoWithBackoff` with `BackoffLimit = limit`: returns the final error and
the number of invocations of `f`. -/
def DoWithBackoff (limit : Nat) (fs : Nat → Option GoErr × Bool) : Option GoErr × Nat :=
  doWithBackoffAux fs limit 0 none

/-- The sleep before retry `i`, in nanoseconds, exactly as the source computes
it: `time.Duration(math.Pow(float64(r.BackoffStart.Nanoseconds()), float64(i)))`,
i.e. the nanosecond count of `BackoffStart` raised to the power `i`.  (For the
integer inputs considered here the float64 computation is exact or within one
part in 2^52, which does not affect any comparison below.) -/
def doWithBackoffSleepNs (startNs i : Nat) : Nat := startNs ^ i

/-- Specification-side sleep: geometric growth `backoffStart × 2^i`. -/
def specBackoffSleepNs (startNs i : Nat) : Nat := startNs * 2 ^ i

/-! ### The message pipeline (`lib/gmail/gmail.go`) -/

/-- Go `mail.Message`: the parsed header map (name → values) plus an opaque body
handle standing in for the body reader. -/
structure MailMessage where
  header : String → List String
  body : Nat

/-- Go `msg.Header[name] = vs`: functional update of the header map. -/
def setHeader (h : String → List String) (name : String) (vs : List String) : String → List String :=
  fun x => if x = name then vs else h x

/-- The header used for labels (`labelsHeader = "X-Keywords"`). -/
def labelsHeader : String := "X-Keywords"

/-- Go `NONE` of the operation iota. -/
def opNONE : Nat := 0

/-- Go `ADD` of the operation iota. -/
def opADD : Nat := 1

/-- Go `DELETE` of the operation iota. -/
def opDELETE : Nat := 2

/-- Go `WRITE_LABELS` of the operation iota. -/
def opWRITE_LABELS : Nat := 3

/-- The `msgOp` record flowing through the pipeline.  Zero value: empty id,
zero history id, nil labels, nil message, `NONE`, nil error. -/
structure MsgOp where
  id : String := ""
  historyId : Nat := 0
  labels : List String := []
  msg : Option MailMessage := none
  operation : Nat := opNONE
  error : Option GoErr := none

/-- Go `gmail.Message` metadata as returned by `svc.GetMetadata`. -/
structure MsgMetadata where
  labelIds : List String
  historyId : Nat

/-- The external collaborators `handleNewMsg` and the apply stage call into,
as result oracles: the REST service (`GetRawMessage`, `GetMetadata`), Go's
`base64.URLEncoding.DecodeString`, `mail.ReadMessage`, the maildir read
(`getMaildirMessage`, wrapping `GetFile`/`os.Open`/`ReadMessage`), maildir
delivery (`dir.Deliver`; its argument is the possibly-nil `o.Msg`, on which Go
would nil-dereference — never reached from the code modelled here), and
maildir deletion (`dir.Delete`, `none` meaning success). -/
structure GmailEnv where
  getRawMessage : String → Except GoErr String
  base64Decode : String → Except GoErr (List Nat)
  readMessage : List Nat → Except GoErr MailMessage
  getMetadata : String → Except GoErr MsgMetadata
  getMaildirMessage : String → Except GoErr MailMessage
  deliver : Option MailMessage → Except GoErr String
  dirDelete : String → Option GoErr

/-- Go `Gmail.getBody m`, returning Go's `(msg, err)` pair: a service error or a
base64 decode error is returned as the error; a parse failure from
`mail.ReadMessage` is logged and deliberately swallowed, yielding `(nil, nil)`
(the Gmail API sometimes returns non-MIME items such as chats). -/
def getBody (env : GmailEnv) (m : String) : Option MailMessage × Option GoErr :=
  match env.getRawMessage m with
  | Except.error e => (none, some e)
  | Except.ok body =>
    match env.base64Decode body with
    | Except.error e => (none, some e)
    | Except.ok raw =>
      match env.readMessage raw with
      | Except.error _ => (none, none)
      | Except.ok msg => (some msg, none)

/-- The tail of `handleNewMsg` after the new-message branch: fetch metadata
into the op; on a label change for an existing message re-read the local file
and mark `WRITE_LABELS`; on a fresh `ADD` stamp the labels header. -/
def handleNewMsgMeta (env : GmailEnv) (c : Cache) (id k : String) (ex : Bool) (o : MsgOp) : MsgOp :=
  match env.getMetadata id with
  | Except.error e => { o with error := some e }
  | Except.ok meta =>
    let o := { o with labels := meta.labelIds, historyId := meta.historyId }
    if labelsChanged c id o.labels ∧ ex then
      match env.getMaildirMessage k with
      | Except.error e => { o with error := some e }
      | Except.ok m =>
        { o with msg := some { m with header := setHeader m.header labelsHeader o.labels },
                 operation := opWRITE_LABELS }
    else if o.operation = opADD then
      match o.msg with
      | some m => { o with msg := some { m with header := setHeader m.header labelsHeader o.labels } }
      | none => o
    else o

/-- Go `Gmail.handleNewMsg id`: look up the cached key; for an uncached id mark
`ADD` and fetch the body — on `err != nil || m == nil`, a `*googleapi.Error`
with code 404 leaves `Error` nil (deletion raced the listing), anything else
stores `err` (nil for a swallowed parse failure), and the operation reverts to
`NONE`; otherwise continue with metadata and label comparison. -/
def handleNewMsg (env : GmailEnv) (c : Cache) (id : String) : MsgOp :=
  let ke := GetMsgKey c id
  let o : MsgOp := { id := id }
  if ke.2 = false then
    let o := { o with operation := opADD }
    match getBody env id with
    | (some m, none) => handleNewMsgMeta env c id ke.1 ke.2 { o with msg := some m }
    | (_, err) =>
      let o :=
        match err with
        | some (GoErr.googleapi code) =>
          if code = 404 then o else { o with error := err }
        | _ => { o with error := err }
      { o with operation := opNONE }
  else
    handleNewMsgMeta env c id ke.1 ke.2 o

/-! ### The apply stage (`writeAdd`, `writeDel`, `writeLabels`, `writeOperation`)
and the sequentialized sync runs -/

/-- Go `Gmail.writeAdd m`: deliver the message, then cache its labels and key. -/
def writeAdd (env : GmailEnv) (c : Cache) (m : MsgOp) : Except GoErr Cache :=
  match env.deliver m.msg with
  | Except.error e => Except.error e
  | Except.ok k => Except.ok (SetMsgKey (SetMsgLabels c m.id m.labels) m.id k)

/-- Go `Gmail.writeDel id`: no cached key means nothing to do (return nil);
otherwise delete the maildir file and, on success, drop the id from the cache. -/
def writeDel (env : GmailEnv) (c : Cache) (id : String) : Except GoErr Cache :=
  match GetMsgKey c id with
  | (_, false) => Except.ok c
  | (k, true) =>
    match env.dirDelete k with
    | some e => Except.error e
    | none => Except.ok (DelMsg c id)

/-- Go `Gmail.writeLabels id labels`: an unknown id is logged and ignored;
otherwise read the local file, overwrite the labels header, deliver the new
copy, update the cache, and delete the previous file. -/
def writeLabels (env : GmailEnv) (c : Cache) (id : String) (labels : List String) : Except GoErr Cache :=
  match GetMsgKey c id with
  | (_, false) => Except.ok c
  | (k, true) =>
    match env.getMaildirMessage k with
    | Except.error e => Except.error e
    | Except.ok msg =>
      let msg := { msg with header := setHeader msg.header labelsHeader labels }
      match env.deliver (some msg) with
      | Except.error e => Except.error e
      | Except.ok kn =>
        let c := SetMsgKey (SetMsgLabels c id labels) id kn
        match env.dirDelete k with
        | some e => Except.error e
        | none => Except.ok c

/-- Go `Gmail.writeOperation o`: dispatch on the operation kind. -/
def writeOperation (env : GmailEnv) (c : Cache) (o : MsgOp) : Except GoErr Cache :=
  if o.operation = opADD then writeAdd env c o
  else if o.operation = opDELETE then writeDel env c o.id
  else if o.operation = opWRITE_LABELS then writeLabels env c o.id o.labels
  else Except.ok c

/-- The consumer loop of `full()` over the drained `ops` channel, with the
history high-water accumulator `h` (initialized to `0` at `full`'s top): an op
carrying an error aborts with it; a `NONE` op is skipped *before* the
high-water update; otherwise the high-water mark takes `o.HistoryId` when
larger and the op is applied. -/
def applyLoopFull (env : GmailEnv) : List MsgOp → Nat → Cache → Except GoErr (Nat × Cache)
  | [], h, c => Except.ok (h, c)
  | o :: rest, h, c =>
    match o.error with
    | some e => Except.error e
    | none =>
      if o.operation = opNONE then applyLoopFull env rest h c
      else
        let h := if o.historyId > h then o.historyId else h
        match writeOperation env c o with
        | Except.error e => Except.error e
        | Except.ok c => applyLoopFull env rest h c

/-- The consumer loop of `incremental()`: identical to the full variant except
that the history high-water mark is tracked by the producer from history
record ids, not from ops. -/
def applyLoopInc (env : GmailEnv) : List MsgOp → Cache → Except GoErr Cache
  | [], c => Except.ok c
  | o :: rest, c =>
    match o.error with
    | some e => Except.error e
    | none =>
      if o.operation = opNONE then applyLoopInc env rest c
      else
        match writeOperation env c o with
        | Except.error e => Except.error e
        | Except.ok c => applyLoopInc env rest c

/-- The reconcile-deletes pass at the end of `full()`: `writeDel` every cached
mid that the producer did not see on the server. -/
def deleteLoop (env : GmailEnv) : List String → Cache → Except GoErr Cache
  | [], c => Except.ok c
  | id :: rest, c =>
    match writeDel env c id with
    | Except.error e => Except.error e
    | Except.ok c => deleteLoop env rest c

/-- Outcome of a sync run: success with the final cache, an error return, or a
process-terminating panic (`SetHistoryIdx` on an oversized index). -/
inductive RunResult where
  | ok (c : Cache)
  | err (e : GoErr)
  | panic

/-- Go `full()`, sequentialized.  The pipeline's channels deliver to a single
consumer loop, so a run is determined by the list `ops` of operation records
the workers produced (in consumption order) and the list `unseen` of cached
mids the reconcile pass finds absent from the server (`GetMsgs` enumeration
order).  `historyId` starts at `0`; only applied (non-`NONE`, error-free) ops
raise it; on success it is persisted with `SetHistoryIdx`. -/
def fullSyncModel (env : GmailEnv) (ops : List MsgOp) (unseen : List String) (c : Cache) : RunResult :=
  match applyLoopFull env ops 0 c with
  | Except.error e => RunResult.err e
  | Except.ok (h, c) =>
    match deleteLoop env unseen c with
    | Except.error e => RunResult.err e
    | Except.ok c =>
      match SetHistoryIdx c h with
      | some c => RunResult.ok c
      | none => RunResult.panic

/-- Go `incremental(start)`, sequentialized.  The producer walks the history
pages, folding every record id into `historyId` (starting from the `start`
passed in by `Sync`, which is the cached index) with `if m.Id > historyId`;
`recIds` is the list of record ids it saw and `ops` the operation records the
pipeline delivered to the consumer loop.  On successful drain the folded
`historyId` is persisted. -/
def incrementalSyncModel (env : GmailEnv) (start : Nat) (recIds : List Nat) (ops : List MsgOp) (c : Cache) : RunResult :=
  let h := recIds.foldl (fun a i => if i > a then i else a) start
  match applyLoopInc env ops c with
  | Except.error e => RunResult.err e
  | Except.ok c =>
    match SetHistoryIdx c h with
    | some c => RunResult.ok c
    | none => RunResult.panic

/-- The history high-water mark `full()` ends with, as a fold over the ops it
successfully applied: `NONE` ops are skipped, every other op raises the mark
to its `HistoryId` when larger. -/
def fullFinalHist (ops : List MsgOp) : Nat :=
  ops.foldl (fun h o => if o.operation = opNONE then h
                        else if o.historyId > h then o.historyId else h) 0

/-! ### Concrete fixtures for evaluated instances -/

/-- An environment none of whose operations succeed; used where no external
call is reached. -/
def stubEnv : GmailEnv where
  getRawMessage := fun _ => Except.error (GoErr.other "unused")
  base64Decode := fun _ => Except.error (GoErr.other "unused")
  readMessage := fun _ => Except.error (GoErr.other "unused")
  getMetadata := fun _ => Except.error (GoErr.other "unused")
  getMaildirMessage := fun _ => Except.error (GoErr.other "unused")
  deliver := fun _ => Except.error (GoErr.other "unused")
  dirDelete := fun _ => some (GoErr.other "unused")

/-- An environment whose body fetch answers HTTP 404 for every id. -/
def env404 : GmailEnv :=
  { stubEnv with getRawMessage := fun _ => Except.error (GoErr.googleapi 404) }

/-- An environment whose body fetch and decode succeed but whose RFC 5322
parse fails (a non-MIME item such as a chat). -/
def envParseFail : GmailEnv :=
  { stubEnv with
    getRawMessage := fun _ => Except.ok "body"
    base64Decode := fun _ => Except.ok [104, 105] }

/-- An environment where maildir deletion succeeds. -/
def envDelOk : GmailEnv := { stubEnv with dirDelete := fun _ => none }

/-- A cache whose persisted history index is `5` (the stored buffer is what
`SetHistoryIdx 5` writes). -/
def cacheHist5 : Cache :=
  cacheSet emptyCache historyIndexNs "0" (CacheVal.bytes [5, 0, 0, 0, 0, 0, 0, 0])

/-- A cache holding labels `["a", "b"]` for message id `"id"` (the state the
test `TestComputeLabels` sets up). -/
def cacheAB : Cache := SetMsgLabels emptyCache "id" ["a", "b"]

/-- A cache holding key `"k"` and labels `["a"]` for message id `"m"`. -/
def cacheMK : Cache := SetMsgLabels (SetMsgKey emptyCache "m" "k") "m" ["a"]

/-! ### Basic cache lemmas -/

theorem cacheSet_same (c : Cache) (ns k : String) (v : CacheVal) :
    cacheSet c ns k v ns k = some v := by
  simp [cacheSet]

theorem cacheSet_ne_ns (c : Cache) (ns k ns' k' : String) (v : CacheVal) (h : ns' ≠ ns) :
    cacheSet c ns k v ns' k' = c ns' k' := by
  simp [cacheSet, h]

theorem cacheDel_same (c : Cache) (ns k : String) :
    cacheDel c ns k ns k = none := by
  simp [cacheDel]

theorem cacheDel_ne_ns (c : Cache) (ns k ns' k' : String) (h : ns' ≠ ns) :
    cacheDel c ns k ns' k' = c ns' k' := by
  simp [cacheDel, h]

/-! ### Varint lemmas -/

theorem uvarintDec_encode : ∀ (fuel x s acc : Nat) (rest : List Nat), x < 128 ^ (fuel + 1) →
    uvarintDec (uvarintBytesAux (fuel + 1) x ++ rest) s acc = acc + x * 2 ^ s := by
  intro fuel
  induction fuel with
  | zero =>
    intro x s acc rest hx
    rw [pow_one] at hx
    simp [uvarintBytesAux, uvarintDec, hx]
  | succ f ih =>
    intro x s acc rest hx
    by_cases h : x < 128
    · simp [uvarintBytesAux, uvarintDec, h]
    · have hb : ¬ (x % 128 + 128 < 128) := by omega
      have hdiv : x / 128 < 128 ^ (f + 1) := by
        rw [Nat.div_lt_iff_lt_mul (by norm_num : (0:Nat) < 128)]
        calc x < 128 ^ (f + 2) := hx
        _ = 128 ^ (f + 1) * 128 := by ring
      have hmod : (x % 128 + 128) % 128 = x % 128 := by omega
      show uvarintDec (uvarintBytesAux (f + 2) x ++ rest) s acc = acc + x * 2 ^ s
      have hunf : uvarintBytesAux (f + 2) x = (x % 128 + 128) :: uvarintBytesAux (f + 1) (x / 128) := by
        simp [uvarintBytesAux, h]
      rw [hunf, List.cons_append]
      show uvarintDec _ _ _ = _
      rw [uvarintDec, if_neg hb, hmod, ih (x / 128) (s + 7) (acc + x % 128 * 2 ^ s) rest hdiv]
      have h128 : (2:Nat) ^ (s + 7) = 2 ^ s * 128 := by rw [pow_add]; norm_num
      have hx' : x % 128 + 128 * (x / 128) = x := Nat.mod_add_div x 128
      calc acc + x % 128 * 2 ^ s + x / 128 * 2 ^ (s + 7)
          = acc + (x % 128 + 128 * (x / 128)) * 2 ^ s := by rw [h128]; ring
        _ = acc + x * 2 ^ s := by rw [hx']

theorem uvarintBytesAux_length_le : ∀ (k fuel x : Nat), x < 128 ^ (k + 1) → k + 1 ≤ fuel →
    (uvarintBytesAux fuel x).length ≤ k + 1 := by
  intro k
  induction k with
  | zero =>
    intro fuel x hx hf
    obtain ⟨f, rfl⟩ : ∃ f, fuel = f + 1 := ⟨fuel - 1, by omega⟩
    rw [pow_one] at hx
    simp [uvarintBytesAux, hx]
  | succ k ih =>
    intro fuel x hx hf
    obtain ⟨f, rfl⟩ : ∃ f, fuel = f + 1 := ⟨fuel - 1, by omega⟩
    by_cases h : x < 128
    · simp [uvarintBytesAux, h]
    · have hdiv : x / 128 < 128 ^ (k + 1) := by
        rw [Nat.div_lt_iff_lt_mul (by norm_num : (0:Nat) < 128)]
        calc x < 128 ^ (k + 2) := hx
        _ = 128 ^ (k + 1) * 128 := by ring
      have := ih f (x / 128) hdiv (by omega)
      simp only [uvarintBytesAux, if_neg h, List.length_cons]
      omega

theorem uvarintBytesAux_lt_of_length_le : ∀ (k fuel x : Nat), k < fuel →
    (uvarintBytesAux fuel x).length ≤ k → x < 128 ^ k := by
  intro k
  induction k with
  | zero =>
    intro fuel x hf hl
    obtain ⟨f, rfl⟩ : ∃ f, fuel = f + 1 := ⟨fuel - 1, by omega⟩
    by_cases h : x < 128 <;> simp [uvarintBytesAux, h] at hl
  | succ k ih =>
    intro fuel x hf hl
    obtain ⟨f, rfl⟩ : ∃ f, fuel = f + 1 := ⟨fuel - 1, by omega⟩
    by_cases h : x < 128
    · calc x < 128 := h
      _ = 128 ^ 1 := (pow_one 128).symm
      _ ≤ 128 ^ (k + 1) := Nat.pow_le_pow_right (by norm_num) (by omega)
    · simp only [uvarintBytesAux, if_neg h, List.length_cons] at hl
      have := ih f (x / 128) (by omega) (by omega)
      rw [Nat.div_lt_iff_lt_mul (by norm_num : (0:Nat) < 128)] at this
      calc x < 128 ^ k * 128 := this
      _ = 128 ^ (k + 1) := by ring

theorem setHistoryIdx_roundtrip (c : Cache) (i : Nat) (c' : Cache)
    (h : SetHistoryIdx c i = some c') : GetHistoryIdx c' = i := by
  unfold SetHistoryIdx putUvarint8 at h
  by_cases hl : (uvarintBytes i).length ≤ 8
  · simp only [hl, if_true, Option.map_some] at h
    obtain rfl : cacheSet c historyIndexNs "0"
        (CacheVal.bytes (uvarintBytes i ++ List.replicate (8 - (uvarintBytes i).length) 0)) = c' := by
      simpa using h
    have hlt : i < 128 ^ 8 :=
      uvarintBytesAux_lt_of_length_le 8 10 i (by norm_num) hl
    have hlt10 : i < 128 ^ (9 + 1) :=
      lt_of_lt_of_le hlt (Nat.pow_le_pow_right (by norm_num) (by norm_num))
    have hdec := uvarintDec_encode 9 i 0 0 (List.replicate (8 - (uvarintBytes i).length) 0) hlt10
    simp only [GetHistoryIdx, cacheSet_same]
    simpa [uvarint, uvarintBytes] using hdec
  · simp [hl] at h

/-! ### Claim C3: history-index round trip through the cache -/

/-- C3: the varint round trip `GetHistoryIdx ∘ SetHistoryIdx` does NOT cover
the full uint64 range: `SetHistoryIdx` writes into `make([]byte, 8)`, and for
`i ≥ 2^56` the varint needs at least 9 bytes, so `binary.PutUvarint` indexes
past the buffer and panics (first conjunct, evaluated at `i = 2^56`).  Below
`2^56` the encoding is deterministic and round-trips (second conjunct). -/
theorem setHistoryIdx_no_full_roundtrip :
    SetHistoryIdx emptyCache (2 ^ 56) = none ∧
    ∀ (c : Cache) (i : Nat), i < 2 ^ 56 →
      ∃ c', SetHistoryIdx c i = some c' ∧ GetHistoryIdx c' = i := by
  constructor
  · rfl
  · intro c i hi
    have hlen : (uvarintBytes i).length ≤ 8 := by
      have h8 : i < 128 ^ (7 + 1) := by
        calc i < 2 ^ 56 := hi
        _ = 128 ^ (7 + 1) := by norm_num
      exact uvarintBytesAux_length_le 7 10 i h8 (by norm_num)
    refine ⟨cacheSet c historyIndexNs "0"
      (CacheVal.bytes (uvarintBytes i ++ List.replicate (8 - (uvarintBytes i).length) 0)), ?_, ?_⟩
    · simp [SetHistoryIdx, putUvarint8, hlen]
    · apply setHistoryIdx_roundtrip c i
      simp [SetHistoryIdx, putUvarint8, hlen]

/-- Witness for C3's proved part at `i = 5`: setting succeeds and reading
returns `5`. -/
theorem setHistoryIdx_no_full_roundtrip_witness :
    SetHistoryIdx emptyCache 5 =
      some (cacheSet emptyCache historyIndexNs "0" (CacheVal.bytes [5, 0, 0, 0, 0, 0, 0, 0])) ∧
    GetHistoryIdx (cacheSet emptyCache historyIndexNs "0" (CacheVal.bytes [5, 0, 0, 0, 0, 0, 0, 0])) = 5 := by
  have h5 : SetHistoryIdx emptyCache 5 =
      some (cacheSet emptyCache historyIndexNs "0" (CacheVal.bytes [5, 0, 0, 0, 0, 0, 0, 0])) := rfl
  obtain ⟨c', hset, hget⟩ := setHistoryIdx_no_full_roundtrip.2 emptyCache 5 (by norm_num)
  have hc : c' = cacheSet emptyCache historyIndexNs "0" (CacheVal.bytes [5, 0, 0, 0, 0, 0, 0, 0]) :=
    Option.some.inj (hset.symm.trans h5)
  exact ⟨h5, hc ▸ hget⟩

/-! ### Claim C2: the backoff sleep formula -/

/-- C2: the sleep before retry `i` is NOT `backoffStart × 2^i`; the source
computes `pow(backoffStart_ns, i)`, exponentiating the nanosecond count.  At
`BackoffStart = 1s = 10^9 ns` and attempt `i = 2` the code sleeps
`10^18 ns ≈ 31.7 years` where the intended geometric formula gives `4 s`;
already at `i = 2` the code's sleep exceeds the intended one by a factor of
`2.5 × 10^8`. -/
theorem doWithBackoff_sleep_not_geometric :
    doWithBackoffSleepNs (10 ^ 9) 2 = 10 ^ 18 ∧
    specBackoffSleepNs (10 ^ 9) 2 = 4 * 10 ^ 9 ∧
    doWithBackoffSleepNs (10 ^ 9) 2 ≠ specBackoffSleepNs (10 ^ 9) 2 ∧
    specBackoffSleepNs (10 ^ 9) 2 < doWithBackoffSleepNs (10 ^ 9) 2 := by
  refine ⟨by norm_num [doWithBackoffSleepNs], by norm_num [specBackoffSleepNs], ?_, ?_⟩ <;>
    norm_num [doWithBackoffSleepNs, specBackoffSleepNs]

/-! ### Claim C9: invocation count of `DoWithBackoff` -/

theorem doWithBackoffAux_count_le (fs : Nat → Option GoErr × Bool) :
    ∀ (fuel i : Nat) (e : Option GoErr), (doWithBackoffAux fs fuel i e).2 ≤ fuel := by
  intro fuel
  induction fuel with
  | zero => intro i e; simp [doWithBackoffAux]
  | succ f ih =>
    intro i e
    simp only [doWithBackoffAux]
    split
    · simp
    · simpa using Nat.succ_le_succ (ih (i + 1) ((fs i).1))

/-- C9: `DoWithBackoff` invokes `f` at most `BackoffLimit` times, and with
`BackoffLimit = 0` it returns `nil` (the zero value of `var err error`)
without invoking `f` at all. -/
theorem doWithBackoff_invocation_bound (limit : Nat) (fs : Nat → Option GoErr × Bool) :
    (DoWithBackoff limit fs).2 ≤ limit ∧ DoWithBackoff 0 fs = (none, 0) :=
  ⟨doWithBackoffAux_count_le fs limit 0 none, rfl⟩

/-! ### Map-set lemmas for `computeLabels` -/

theorem mem_mapInsert (m : List String) (x l : String) : l ∈ mapInsert m x ↔ l ∈ m ∨ l = x := by
  by_cases h : x ∈ m
  · simp only [mapInsert, if_pos h]
    constructor
    · exact Or.inl
    · rintro (hl | rfl)
      · exact hl
      · exact h
  · simp [mapInsert, h]

theorem mem_foldl_mapInsert : ∀ (xs m : List String) (l : String),
    l ∈ xs.foldl mapInsert m ↔ l ∈ m ∨ l ∈ xs := by
  intro xs
  induction xs with
  | nil => simp
  | cons x xs ih =>
    intro m l
    rw [List.foldl_cons, ih, mem_mapInsert, List.mem_cons]
    tauto

theorem nodup_mapInsert (m : List String) (x : String) (h : m.Nodup) : (mapInsert m x).Nodup := by
  by_cases hx : x ∈ m
  · simpa [mapInsert, hx]
  · simp [mapInsert, hx, List.nodup_append, h]

theorem nodup_foldl_mapInsert : ∀ (xs m : List String), m.Nodup → (xs.foldl mapInsert m).Nodup := by
  intro xs
  induction xs with
  | nil => intro m h; simpa
  | cons x xs ih => intro m h; exact ih _ (nodup_mapInsert m x h)

theorem mem_mapDelete (m : List String) (x l : String) : l ∈ mapDelete m x ↔ l ∈ m ∧ l ≠ x := by
  simp [mapDelete]

theorem mem_foldl_mapDelete : ∀ (xs m : List String) (l : String),
    l ∈ xs.foldl mapDelete m ↔ l ∈ m ∧ l ∉ xs := by
  intro xs
  induction xs with
  | nil => simp
  | cons x xs ih =>
    intro m l
    rw [List.foldl_cons, ih, mem_mapDelete, List.mem_cons]
    tauto

theorem nodup_foldl_mapDelete : ∀ (xs m : List String), m.Nodup → (xs.foldl mapDelete m).Nodup := by
  intro xs
  induction xs with
  | nil => intro m h; simpa
  | cons x xs ih => intro m h; exact ih _ (List.Nodup.filter _ h)

/-! ### Claim C4: `computeLabels` computes `(cached ∪ added) \ removed` -/

/-- C4: when the cache holds a label set for `mid`, `computeLabels` returns
`(cached ∪ added) \ removed` as a set; when it holds none, it returns `added`
unchanged. -/
theorem computeLabels_spec (c : Cache) (mid : String) (added removed cached : List String) :
    (c midToLabels mid = some (CacheVal.gob cached) →
      (computeLabels c mid added removed).toFinset =
        (cached.toFinset ∪ added.toFinset) \ removed.toFinset) ∧
    (c midToLabels mid = none → computeLabels c mid added removed = added) := by
  constructor
  · intro h
    have hg : GetMsgLabels c mid = (cached, true) := by simp [GetMsgLabels, h]
    ext l
    simp only [computeLabels, hg, List.mem_toFinset, Finset.mem_sdiff, Finset.mem_union]
    rw [mem_foldl_mapDelete, mem_foldl_mapInsert, mem_foldl_mapInsert]
    simp
  · intro h
    simp [computeLabels, GetMsgLabels, h]

/-- Witness for C4 at the spec's concrete scenario: cached `{a, b}`, add `c`,
remove `b` yields the set `{a, c}`. -/
theorem computeLabels_spec_witness :
    cacheAB midToLabels "id" = some (CacheVal.gob ["a", "b"]) ∧
    (computeLabels cacheAB "id" ["c"] ["b"]).toFinset =
      ((["a", "b"] : List String).toFinset ∪ (["c"] : List String).toFinset) \
        (["b"] : List String).toFinset ∧
    (computeLabels cacheAB "id" ["c"] ["b"]).toFinset = {"a", "c"} := by
  refine ⟨rfl, (computeLabels_spec cacheAB "id" ["c"] ["b"] ["a", "b"]).1 rfl, ?_⟩
  rw [(computeLabels_spec cacheAB "id" ["c"] ["b"] ["a", "b"]).1 rfl]
  decide

/-! ### Claim C8: removals win over additions and the result has no duplicates -/

/-- C8: on a cached mid, a label occurring in both `added` and `removed` of
the same call is absent from the result (the removal pass runs after the
insertion passes), and the returned list never contains duplicates (it
enumerates the keys of a Go map). -/
theorem computeLabels_removal_wins (c : Cache) (mid : String) (added removed cached : List String)
    (h : c midToLabels mid = some (CacheVal.gob cached)) :
    (∀ l, l ∈ added → l ∈ removed → l ∉ computeLabels c mid added removed) ∧
    (computeLabels c mid added removed).Nodup := by
  have hg : GetMsgLabels c mid = (cached, true) := by simp [GetMsgLabels, h]
  constructor
  · intro l _ hlr hmem
    simp only [computeLabels, hg] at hmem
    rw [mem_foldl_mapDelete] at hmem
    exact hmem.2 hlr
  · simp only [computeLabels, hg]
    exact nodup_foldl_mapDelete _ _ (nodup_foldl_mapInsert _ _ (nodup_foldl_mapInsert _ _ List.nodup_nil))

/-- Witness for C8: with cached `{a, b}`, the label `x` added and removed in
the same call is absent, and the result is duplicate-free. -/
theorem computeLabels_removal_wins_witness :
    "x" ∉ computeLabels cacheAB "id" ["x"] ["x"] ∧
    (computeLabels cacheAB "id" ["x"] ["x"]).Nodup :=
  ⟨(computeLabels_removal_wins cacheAB "id" ["x"] ["x"] ["a", "b"] rfl).1 "x" (by simp) (by simp),
   (computeLabels_removal_wins cacheAB "id" ["x"] ["x"] ["a", "b"] rfl).2⟩

/-! ### Sorted-comparison lemmas for `labelsChanged` -/

theorem sortedDiffer_iff : ∀ (xs ys : List String), xs.length = ys.length →
    (sortedDiffer xs ys = true ↔ xs ≠ ys) := by
  intro xs
  induction xs with
  | nil =>
    intro ys hlen
    obtain rfl : ys = [] := by cases ys <;> simp_all
    simp [sortedDiffer]
  | cons x xs ih =>
    intro ys hlen
    obtain ⟨y, ys, rfl⟩ : ∃ z zs, ys = z :: zs := by cases ys <;> simp_all
    have hlen' : xs.length = ys.length := by simpa using hlen
    simp only [sortedDiffer, List.zip_cons_cons, List.any_cons, Bool.or_eq_true, decide_eq_true_eq]
    rw [show (List.any (xs.zip ys) fun p => decide ¬p.1 = p.2) = sortedDiffer xs ys from rfl,
      ih ys hlen']
    simp only [ne_eq, List.cons.injEq, not_and]
    tauto

theorem sortedDiffer_self : ∀ (xs : List String), sortedDiffer xs xs = false := by
  intro xs
  induction xs with
  | nil => rfl
  | cons x xs ih =>
    simpa [sortedDiffer, List.zip_cons_cons, List.any_cons] using ih

/-! ### Claim C5: `labelsChanged` compares label sets as sorted sequences -/

/-- C5: on a mid with no cached labels `labelsChanged` is `true`; on a cached
mid it is `true` exactly when the two lists, sorted, are unequal (differ in
length or in some position); hence it is `false` on the cached list itself and
on every permutation of it. -/
theorem labelsChanged_spec (c : Cache) (mid : String) (cached : List String) :
    (c midToLabels mid = some (CacheVal.gob cached) →
      (∀ newLabels, labelsChanged c mid newLabels = true ↔
        cached.insertionSort (· ≤ ·) ≠ newLabels.insertionSort (· ≤ ·)) ∧
      labelsChanged c mid cached = false ∧
      (∀ P, P.Perm cached → labelsChanged c mid P = false)) ∧
    (c midToLabels mid = none → ∀ newLabels, labelsChanged c mid newLabels = true) := by
  constructor
  · intro h
    have hg : GetMsgLabels c mid = (cached, true) := by simp [GetMsgLabels, h]
    have hmain : ∀ nl, labelsChanged c mid nl =
        (if (cached.insertionSort (· ≤ ·)).length = (nl.insertionSort (· ≤ ·)).length
         then sortedDiffer (cached.insertionSort (· ≤ ·)) (nl.insertionSort (· ≤ ·))
         else true) := by
      intro nl
      simp [labelsChanged, hg, sortedDiffer]
    have hself : labelsChanged c mid cached = false := by
      rw [hmain cached, if_pos rfl]
      exact sortedDiffer_self _
    refine ⟨?_, hself, ?_⟩
    · intro nl
      rw [hmain nl]
      split_ifs with hlen
      · exact sortedDiffer_iff _ _ hlen
      · exact ⟨fun _ heq => hlen (by rw [heq]), fun _ => rfl⟩
    · intro P hP
      have hsort : P.insertionSort (· ≤ ·) = cached.insertionSort (· ≤ ·) :=
        List.eq_of_perm_of_sorted
          ((List.perm_insertionSort _ P).trans (hP.trans (List.perm_insertionSort _ cached).symm))
          (List.sorted_insertionSort _ P) (List.sorted_insertionSort _ cached)
      rw [hmain P, hsort, if_pos rfl]
      exact sortedDiffer_self _
  · intro h nl
    simp [labelsChanged, GetMsgLabels, h]

/-- Witness for C5 at the spec's concrete scenario 5: with cached `["a", "b"]`,
the cached list and its permutation `["b", "a"]` report no change, `["a"]`
reports a change, and an uncached mid always reports a change. -/
theorem labelsChanged_spec_witness :
    labelsChanged cacheAB "id" ["a", "b"] = false ∧
    labelsChanged cacheAB "id" ["b", "a"] = false ∧
    labelsChanged cacheAB "id" ["a"] = true ∧
    labelsChanged emptyCache "id" ["a"] = true :=
  ⟨((labelsChanged_spec cacheAB "id" ["a", "b"]).1 rfl).2.1,
   ((labelsChanged_spec cacheAB "id" ["a", "b"]).1 rfl).2.2 ["b", "a"] (by decide),
   (((labelsChanged_spec cacheAB "id" ["a", "b"]).1 rfl).1 ["a"]).mpr (by
     intro heq
     have hlen := congrArg List.length heq
     rw [List.length_insertionSort, List.length_insertionSort] at hlen
     simp at hlen),
   (labelsChanged_spec emptyCache "id" ["a"]).2 rfl ["a"]⟩

/-! ### Hex-parsing lemmas for `shardForMsgId` -/

theorem hexFold_ge : ∀ (cs : List Char) (n : Nat),
    n ≤ cs.foldl (fun a ch => a * 16 + (hexDigitVal ch).getD 0) n := by
  intro cs
  induction cs with
  | nil => intro n; simp
  | cons ch cs ih =>
    intro n
    simp only [List.foldl_cons]
    exact le_trans (by omega) (ih (n * 16 + (hexDigitVal ch).getD 0))

theorem parseUintHex64Digits_correct : ∀ (cs : List Char) (n : Nat),
    (∀ ch ∈ cs, (hexDigitVal ch).isSome) →
    cs.foldl (fun a ch => a * 16 + (hexDigitVal ch).getD 0) n < 2 ^ 64 →
    parseUintHex64Digits cs n = cs.foldl (fun a ch => a * 16 + (hexDigitVal ch).getD 0) n := by
  intro cs
  induction cs with
  | nil => intro n _ _; rfl
  | cons ch cs ih =>
    intro n hdig hlt
    obtain ⟨d, hd⟩ := Option.isSome_iff_exists.mp (hdig ch (by simp))
    have hgetD : (hexDigitVal ch).getD 0 = d := by rw [hd]; rfl
    have hstep : n * 16 + d ≤ (ch :: cs).foldl (fun a ch => a * 16 + (hexDigitVal ch).getD 0) n := by
      simp only [List.foldl_cons, hgetD]
      exact hexFold_ge cs (n * 16 + d)
    have hn : ¬ n ≥ 2 ^ 60 := by
      intro hge
      have : (2:Nat) ^ 64 ≤ n * 16 + d := by
        calc (2:Nat) ^ 64 = 2 ^ 60 * 16 := by norm_num
        _ ≤ n * 16 := by omega
        _ ≤ n * 16 + d := by omega
      omega
    simp only [parseUintHex64Digits, hd, if_neg hn, List.foldl_cons, hgetD]
    exact ih (n * 16 + d) (fun c hc => hdig c (List.mem_cons_of_mem _ hc))
      (by rw [List.foldl_cons, hgetD] at hlt; exact hlt)

/-! ### Claim C7: shard assignment -/

/-- C7: for a hex id whose value fits in a `uint64` (as `ParseUint(id, 16, 64)`
reads it) and a positive worker count, `shardForMsgId` returns exactly
`ParseHex(id) mod n`, which lies in `[0, n)`; being a pure function of the id,
every event for the same mid lands in the same shard. -/
theorem shardForMsgId_spec (n : Nat) (id : String) (hn : 0 < n)
    (hdig : ∀ ch ∈ id.data, (hexDigitVal ch).isSome)
    (hfit : hexVal id < 2 ^ 64) :
    shardForMsgId n id = hexVal id % n ∧ shardForMsgId n id < n := by
  have hparse : parseUintHex64 id = hexVal id := by
    unfold parseUintHex64 hexVal
    by_cases h : id.data = []
    · simp [h]
    · rw [if_neg h]
      exact parseUintHex64Digits_correct id.data 0 hdig hfit
  refine ⟨by unfold shardForMsgId; rw [hparse], ?_⟩
  unfold shardForMsgId
  exact Nat.mod_lt _ hn

/-- Witness for C7 at `id = "2a"`, `n = 8` (`ParseHex("2a") = 42`,
`42 mod 8 = 2`). -/
theorem shardForMsgId_spec_witness :
    (0 < 8 ∧ hexVal "2a" < 2 ^ 64) ∧
    shardForMsgId 8 "2a" = hexVal "2a" % 8 ∧ shardForMsgId 8 "2a" < 8 :=
  ⟨⟨by norm_num, by decide⟩,
   shardForMsgId_spec 8 "2a" (by norm_num) (by decide) (by decide)⟩

/-! ### Claim C6: error policy of `handleNewMsg` for uncached messages -/

/-- C6: for an uncached mid, a 404 from the body fetch and a parse failure
both yield an op with `Operation = NONE` and a nil `Error` (the pipeline
continues); any other body-fetch error (from the RPC or from base64 decoding —
neither of which is ever a googleapi 404 for the decoder) is returned in the
op's `Error` field, still with `Operation = NONE`. -/
theorem handleNewMsg_error_policy (env : GmailEnv) (c : Cache) (id : String)
    (hun : c midToKey id = none) :
    (env.getRawMessage id = Except.error (GoErr.googleapi 404) →
      (handleNewMsg env c id).operation = opNONE ∧ (handleNewMsg env c id).error = none) ∧
    (∀ body raw e, env.getRawMessage id = Except.ok body →
      env.base64Decode body = Except.ok raw → env.readMessage raw = Except.error e →
      (handleNewMsg env c id).operation = opNONE ∧ (handleNewMsg env c id).error = none) ∧
    (∀ e, env.getRawMessage id = Except.error e → e ≠ GoErr.googleapi 404 →
      (handleNewMsg env c id).operation = opNONE ∧ (handleNewMsg env c id).error = some e) ∧
    (∀ body e, env.getRawMessage id = Except.ok body → env.base64Decode body = Except.error e →
      e ≠ GoErr.googleapi 404 →
      (handleNewMsg env c id).operation = opNONE ∧ (handleNewMsg env c id).error = some e) := by
  have hke : GetMsgKey c id = ("", false) := by simp [GetMsgKey, hun]
  refine ⟨?_, ?_, ?_, ?_⟩
  · intro hraw
    have hgb : getBody env id = (none, some (GoErr.googleapi 404)) := by simp [getBody, hraw]
    constructor <;> simp [handleNewMsg, hke, hgb]
  · intro body raw e hraw hdec hparse
    have hgb : getBody env id = (none, none) := by simp [getBody, hraw, hdec, hparse]
    constructor <;> simp [handleNewMsg, hke, hgb]
  · intro e hraw hne
    have hgb : getBody env id = (none, some e) := by simp [getBody, hraw]
    rcases e with code | msg
    · have hcode : ¬ code = 404 := fun hc => hne (by rw [hc])
      constructor <;> simp [handleNewMsg, hke, hgb, hcode]
    · constructor <;> simp [handleNewMsg, hke, hgb]
  · intro body e hraw hdec hne
    have hgb : getBody env id = (none, some e) := by simp [getBody, hraw, hdec]
    rcases e with code | msg
    · have hcode : ¬ code = 404 := fun hc => hne (by rw [hc])
      constructor <;> simp [handleNewMsg, hke, hgb, hcode]
    · constructor <;> simp [handleNewMsg, hke, hgb]

/-- Witness for C6: a 404 body fetch and a parse failure both produce
`Operation = NONE` with nil `Error` on a fresh cache. -/
theorem handleNewMsg_error_policy_witness :
    ((handleNewMsg env404 emptyCache "m").operation = opNONE ∧
      (handleNewMsg env404 emptyCache "m").error = none) ∧
    ((handleNewMsg envParseFail emptyCache "m").operation = opNONE ∧
      (handleNewMsg envParseFail emptyCache "m").error = none) :=
  ⟨(handleNewMsg_error_policy env404 emptyCache "m" rfl).1 rfl,
   (handleNewMsg_error_policy envParseFail emptyCache "m" rfl).2.1
     "body" [104, 105] (GoErr.other "unused") rfl rfl rfl⟩

/-! ### History high-water lemmas for the sync runs -/

theorem le_foldl_histMax : ∀ (l : List Nat) (a : Nat),
    a ≤ l.foldl (fun a i => if i > a then i else a) a := by
  intro l
  induction l with
  | nil => intro a; exact le_refl a
  | cons i l ih =>
    intro a
    simp only [List.foldl_cons]
    refine le_trans ?_ (ih (if i > a then i else a))
    split
    · omega
    · exact le_refl a

theorem applyLoopFull_final (env : GmailEnv) : ∀ (ops : List MsgOp) (h0 : Nat) (c : Cache)
    (h : Nat) (c' : Cache), applyLoopFull env ops h0 c = Except.ok (h, c') →
    h = ops.foldl (fun h o => if o.operation = opNONE then h
                              else if o.historyId > h then o.historyId else h) h0 := by
  intro ops
  induction ops with
  | nil =>
    intro h0 c h c' hrun
    simp only [applyLoopFull] at hrun
    simp only [List.foldl_nil]
    have hpair : (h0, c) = (h, c') := Except.ok.inj hrun
    exact (Prod.mk.injEq _ _ _ _ ▸ hpair).1.symm
  | cons o ops ih =>
    intro h0 c h c' hrun
    simp only [applyLoopFull] at hrun
    cases he : o.error with
    | some e => rw [he] at hrun; cases hrun
    | none =>
      rw [he] at hrun
      by_cases hop : o.operation = opNONE
      · rw [if_pos hop] at hrun
        simp only [List.foldl_cons, if_pos hop]
        exact ih h0 c h c' hrun
      · rw [if_neg hop] at hrun
        cases hw : writeOperation env c o with
        | error e => rw [hw] at hrun; cases hrun
        | ok c1 =>
          rw [hw] at hrun
          simp only [List.foldl_cons, if_neg hop]
          exact ih _ c1 h c' hrun

/-! ### Claim C1: evolution of the persisted history index -/

/-- C1 (amended): a successful incremental sync never decreases the persisted
history index — `incremental` folds history-record ids into the high-water
mark starting from the cached value `Sync` passed in, so the persisted value
is at least the starting one.  A successful full sync instead persists
`fullFinalHist ops`: the high-water mark recomputed from `0` over the applied
(non-`NONE`) operations only, which can be *smaller* than the previously
cached index (see the counterexample). -/
theorem historyIdx_run_behavior :
    (∀ (env : GmailEnv) (recIds : List Nat) (ops : List MsgOp) (c c' : Cache),
      incrementalSyncModel env (GetHistoryIdx c) recIds ops c = RunResult.ok c' →
      GetHistoryIdx c ≤ GetHistoryIdx c') ∧
    (∀ (env : GmailEnv) (ops : List MsgOp) (unseen : List String) (c c' : Cache),
      fullSyncModel env ops unseen c = RunResult.ok c' →
      GetHistoryIdx c' = fullFinalHist ops) := by
  constructor
  · intro env recIds ops c c' hrun
    simp only [incrementalSyncModel] at hrun
    cases happ : applyLoopInc env ops c with
    | error e => rw [happ] at hrun; cases hrun
    | ok c1 =>
      rw [happ] at hrun
      dsimp only at hrun
      cases hset : SetHistoryIdx c1
          (recIds.foldl (fun a i => if i > a then i else a) (GetHistoryIdx c)) with
      | none => rw [hset] at hrun; cases hrun
      | some c2 =>
        rw [hset] at hrun
        obtain rfl : c2 = c' := RunResult.ok.inj hrun
        rw [setHistoryIdx_roundtrip c1 _ c2 hset]
        exact le_foldl_histMax recIds (GetHistoryIdx c)
  · intro env ops unseen c c' hrun
    simp only [fullSyncModel] at hrun
    cases happ : applyLoopFull env ops 0 c with
    | error e => rw [happ] at hrun; cases hrun
    | ok hc1 =>
      obtain ⟨h, c1⟩ := hc1
      rw [happ] at hrun
      dsimp only at hrun
      cases hdel : deleteLoop env unseen c1 with
      | error e => rw [hdel] at hrun; cases hrun
      | ok c2 =>
        rw [hdel] at hrun
        dsimp only at hrun
        cases hset : SetHistoryIdx c2 h with
        | none => rw [hset] at hrun; cases hrun
        | some c3 =>
          rw [hset] at hrun
          obtain rfl : c3 = c' := RunResult.ok.inj hrun
          rw [setHistoryIdx_roundtrip c2 h c3 hset]
          exact applyLoopFull_final env ops 0 c h c1 happ

/-- Counterexample to C1 as stated: starting from a cache whose persisted
history index is `5`, a successful full sync that produced no operations (the
server state matches the local state, as in a forced `--full` re-run)
persists history index `0 < 5` — the persisted index decreased across a
successful run. -/
theorem fullSync_decreases_historyIdx :
    fullSyncModel stubEnv [] [] cacheHist5 =
      RunResult.ok (cacheSet cacheHist5 historyIndexNs "0"
        (CacheVal.bytes [0, 0, 0, 0, 0, 0, 0, 0])) ∧
    GetHistoryIdx cacheHist5 = 5 ∧
    GetHistoryIdx (cacheSet cacheHist5 historyIndexNs "0"
      (CacheVal.bytes [0, 0, 0, 0, 0, 0, 0, 0])) = 0 :=
  ⟨rfl, rfl, rfl⟩

/-- Witness for C1 (amended), incremental part: from an empty cache (index
`0`), an incremental run that saw the single history record id `7` persists
`7 ≥ 0`. -/
theorem historyIdx_run_behavior_witness :
    GetHistoryIdx emptyCache ≤ GetHistoryIdx (cacheSet emptyCache historyIndexNs "0"
      (CacheVal.bytes [7, 0, 0, 0, 0, 0, 0, 0])) :=
  historyIdx_run_behavior.1 stubEnv [7] [] emptyCache
    (cacheSet emptyCache historyIndexNs "0" (CacheVal.bytes [7, 0, 0, 0, 0, 0, 0, 0])) rfl

/-! ### Claim C10: deletion clears both cache namespaces -/

/-- C10: `DelMsg mid` removes both the `mid_to_key` and the `mid_to_label`
entries for `mid`; consequently a `writeDel` that found a cached key and
succeeded leaves neither entry behind, so a delete never leaves a label set
cached for a key-less mid. -/
theorem delMsg_clears_both (c : Cache) (mid : String) (env : GmailEnv) :
    ((GetMsgKey (DelMsg c mid) mid).2 = false ∧
      (GetMsgLabels (DelMsg c mid) mid).2 = false) ∧
    (∀ c', (GetMsgKey c mid).2 = true → writeDel env c mid = Except.ok c' →
      (GetMsgKey c' mid).2 = false ∧ (GetMsgLabels c' mid).2 = false) := by
  have h1 : DelMsg c mid midToKey mid = none := by
    unfold DelMsg
    rw [cacheDel_ne_ns _ _ _ _ _ (by decide : midToKey ≠ midToLabels), cacheDel_same]
  have h2 : DelMsg c mid midToLabels mid = none := by
    unfold DelMsg
    rw [cacheDel_same]
  have hdel : (GetMsgKey (DelMsg c mid) mid).2 = false ∧
      (GetMsgLabels (DelMsg c mid) mid).2 = false := by
    constructor
    · simp [GetMsgKey, h1]
    · simp [GetMsgLabels, h2]
  refine ⟨hdel, ?_⟩
  intro c' hkey hrun
  have hk : GetMsgKey c mid = ((GetMsgKey c mid).1, true) := by
    rw [← hkey]
  unfold writeDel at hrun
  rw [hk] at hrun
  dsimp only at hrun
  cases hd : env.dirDelete (GetMsgKey c mid).1 with
  | some e => rw [hd] at hrun; cases hrun
  | none =>
    rw [hd] at hrun
    obtain rfl : DelMsg c mid = c' := Except.ok.inj hrun
    exact hdel

/-- Witness for C10: deleting `"m"` from a cache holding both its key and its
labels clears both entries, via a successful `writeDel`. -/
theorem delMsg_clears_both_witness :
    (GetMsgKey cacheMK "m").2 = true ∧
    writeDel envDelOk cacheMK "m" = Except.ok (DelMsg cacheMK "m") ∧
    (GetMsgKey (DelMsg cacheMK "m") "m").2 = false ∧
    (GetMsgLabels (DelMsg cacheMK "m") "m").2 = false :=
  ⟨rfl, rfl,
   ((delMsg_clears_both cacheMK "m" envDelOk).2 (DelMsg cacheMK "m") rfl rfl).1,
   ((delMsg_clears_both cacheMK "m" envDelOk).2 (DelMsg cacheMK "m") rfl rfl).2⟩
